import Mathlib

/-!
Shallow embedding of src/automat.py, a cellular automaton playing an
iterated bidding prisoners dilemma on a 2D grid.

Modelling conventions:
* Python ints are Lean Int.
* A Python object attribute that the constructor chain never assigned is
  absent; reading it raises AttributeError.  Cell attributes are therefore
  Option-valued: TitForTat.__init__ does not call the base constructor, so
  its instances carry none for value and bid.
* Fallible code returns an explicit error component; in-place mutations
  performed before an exception escapes are kept in the returned state,
  mirroring Python semantics where a raised exception does not roll back
  earlier attribute assignments.
* Object identity: the source compares cells with ==, which for these
  classes is object identity.  Trial.play therefore takes an explicit
  sameInstance flag, and at the grid level two participants are the same
  object exactly when their flat-list indices coincide.
-/

/-- Python exceptions the embedded module can raise. -/
inductive PyErr where
  | nameError
  | attributeError
  | notImplementedError
  deriving DecidableEq, Repr

/-- The closed set of Cell subclasses defined in the module. -/
inductive Kind where
  | alwaysBid
  | alwaysFraud
  | deadCell
  | titForTat
  deriving DecidableEq, Repr

/-- Class-level constant Params.FRAUD_REWARD. -/
def Params.FRAUD_REWARD : Int := 1

/-- Class-level constant Params.FRAUD_FINE. -/
def Params.FRAUD_FINE : Int := 1

/-- Class-level constant Params.INITIAL_CELL_VALUE. -/
def Params.INITIAL_CELL_VALUE : Int := 10

/-- Class-level constant Params.DEFAULT_BID. -/
def Params.DEFAULT_BID : Int := 1

/-- A Cell object: its class tag and its (possibly absent) attributes.
The base constructor assigns value and bid; only TitForTat assigns
last_other_bid, and TitForTat skips the base constructor entirely. -/
structure Cell where
  kind : Kind
  value : Option Int
  bid : Option Int
  lastOtherBid : Option Int
  deriving DecidableEq, Repr

/-- AlwaysBid(value, bid): the base constructor Cell.__init__ runs. -/
def AlwaysBid.init (value bid : Int) : Cell :=
  ⟨Kind.alwaysBid, some value, some bid, none⟩

/-- AlwaysFraud(value, bid): the base constructor Cell.__init__ runs. -/
def AlwaysFraud.init (value bid : Int) : Cell :=
  ⟨Kind.alwaysFraud, some value, some bid, none⟩

/-- DeadCell(): calls Cell.__init__(0), so value is 0 and bid is the
default Params.DEFAULT_BID. -/
def DeadCell.init : Cell :=
  ⟨Kind.deadCell, some 0, some Params.DEFAULT_BID, none⟩

/-- TitForTat(): sets only last_other_bid = 1 and never calls the base
constructor, so value and bid are absent. -/
def TitForTat.init : Cell :=
  ⟨Kind.titForTat, none, none, some 1⟩

/-- suggest_bid, dispatched on the dynamic class.  AlwaysBid returns
self.bid (absent attribute raises AttributeError); AlwaysFraud returns 0;
the base implementation used by DeadCell raises (raise NotImplemented is a
TypeError at runtime, modelled as notImplementedError); TitForTat tests the
truthiness of self.last_other_bid and returns self.bid or 0. -/
def Cell.suggest_bid (c : Cell) : Except PyErr Int :=
  match c.kind with
  | Kind.alwaysBid =>
      match c.bid with
      | some b => Except.ok b
      | none => Except.error PyErr.attributeError
  | Kind.alwaysFraud => Except.ok 0
  | Kind.deadCell => Except.error PyErr.notImplementedError
  | Kind.titForTat =>
      match c.lastOtherBid with
      | none => Except.error PyErr.attributeError
      | some t =>
          if t ≠ 0 then
            match c.bid with
            | some b => Except.ok b
            | none => Except.error PyErr.attributeError
          else Except.ok 0

/-- remember_play: the base implementation is pass; TitForTat stores the
bid of the opponent in last_other_bid. -/
def Cell.remember_play (c : Cell) (_myBid otherBid : Int) : Cell :=
  match c.kind with
  | Kind.titForTat => { c with lastOtherBid := some otherBid }
  | _ => c

/-- reward_mutual(cell1, cell2, bid1, bid2): both cells gain bid1 + bid2.
Reading a missing value attribute would raise AttributeError; the first
augmented assignment completes before the second one runs. -/
def reward_mutual (cell1 cell2 : Cell) (bid1 bid2 : Int) :
    Cell × Cell × Option PyErr :=
  match cell1.value with
  | none => (cell1, cell2, some PyErr.attributeError)
  | some v1 =>
      let c1 := { cell1 with value := some (v1 + (bid1 + bid2)) }
      match cell2.value with
      | none => (c1, cell2, some PyErr.attributeError)
      | some v2 =>
          (c1, { cell2 with value := some (v2 + (bid1 + bid2)) }, none)

/-- reward_one_fraud(cell, other_bid): the source reads the module-level
name params, which is never defined (only the class Params exists), so
evaluating the right-hand side of the augmented assignment raises
NameError before any mutation takes place. -/
def reward_one_fraud (cell : Cell) (_otherBid : Int) : Cell × Option PyErr :=
  (cell, some PyErr.nameError)

/-- fine_both_fraud(cell1, cell2): both cells lose Params.FRAUD_FINE,
clamped at a floor of 0 with max. -/
def fine_both_fraud (cell1 cell2 : Cell) : Cell × Cell × Option PyErr :=
  match cell1.value with
  | none => (cell1, cell2, some PyErr.attributeError)
  | some v1 =>
      let c1 := { cell1 with value := some (max (v1 - Params.FRAUD_FINE) 0) }
      match cell2.value with
      | none => (c1, cell2, some PyErr.attributeError)
      | some v2 =>
          (c1, { cell2 with value := some (max (v2 - Params.FRAUD_FINE) 0) },
            none)

/-- Trial.bid_cell(cell): asks the cell for a bid; if cell.value - bid >= 0
the bid is deducted and realized, otherwise the realized bid is 0 with no
deduction.  Errors from suggest_bid or from a missing value attribute
propagate with the cell unchanged. -/
def Trial.bid_cell (cell : Cell) : Cell × Except PyErr Int :=
  match cell.suggest_bid with
  | Except.error e => (cell, Except.error e)
  | Except.ok bid =>
      match cell.value with
      | none => (cell, Except.error PyErr.attributeError)
      | some v =>
          if v - bid ≥ 0 then
            ({ cell with value := some (v - bid) }, Except.ok bid)
          else (cell, Except.ok 0)

/-- Trial.play(cell1, cell2) with the default payoff functions bound at
class definition time (the module-level reward_mutual, reward_one_fraud and
fine_both_fraud above).  Returns the final state of both cells and the
exception that escaped, if any; state reached before an exception is kept,
as in Python. -/
def Trial.play (sameInstance : Bool) (cell1 cell2 : Cell) :
    Cell × Cell × Option PyErr :=
  if cell1.kind = Kind.deadCell ∨ cell2.kind = Kind.deadCell ∨
      sameInstance = true then
    (cell1, cell2, none)
  else
    match Trial.bid_cell cell1 with
    | (c1, Except.error e) => (c1, cell2, some e)
    | (c1, Except.ok bid1) =>
        match Trial.bid_cell cell2 with
        | (c2, Except.error e) => (c1, c2, some e)
        | (c2, Except.ok bid2) =>
            let step : Cell × Cell × Option PyErr :=
              if bid1 * bid2 = 0 then
                if bid1 = 0 ∧ bid2 = 0 then
                  fine_both_fraud c1 c2
                else if bid1 = 0 then
                  let r := reward_one_fraud c1 bid2
                  (r.1, c2, r.2)
                else
                  let r := reward_one_fraud c2 bid1
                  (c1, r.1, r.2)
              else
                reward_mutual c1 c2 bid1 bid2
            match step with
            | (d1, d2, some e) => (d1, d2, some e)
            | (d1, d2, none) =>
                (d1.remember_play bid1 bid2, d2.remember_play bid2 bid1, none)

/-- The grid: stored height and width (after border expansion when
bordered) and the flat row-major list of cells. -/
structure Grid where
  height : Nat
  width : Nat
  grid : List Cell
  deriving DecidableEq, Repr

/-- Grid.__init__(height, width, fill, border).  The fill argument is typed
as Cell here, so the isinstance check of the source always succeeds and the
NotImplementedError branch is unreachable; copy.deepcopy of the prototype
into every slot is plain value copying in this embedding.  With border, the
dimensions grow by 2 each before filling and the two loops then overwrite
the first and last column of every row and the middle of the first and last
row with fresh DeadCells. -/
def Grid.init (height width : Nat) (fill : Cell) (border : Bool) : Grid :=
  let H := if border then height + 2 else height
  let W := if border then width + 2 else width
  let g0 : List Cell := List.replicate (H * W) fill
  if border then
    let g1 := (List.range H).foldl
      (fun g i =>
        (g.set (i * W) DeadCell.init).set ((i + 1) * W - 1) DeadCell.init) g0
    let g2 := (List.range' 1 (W - 1 - 1)).foldl
      (fun g i =>
        (g.set i DeadCell.init).set (H * W - 1 - i) DeadCell.init) g1
    ⟨H, W, g2⟩
  else
    ⟨H, W, g0⟩

/-- Grid.get(row, col): toroidal addressing, reducing row and col modulo
the stored height and width.  Python % on ints agrees with Int.emod for a
positive modulus; list indexing is total here via getD (the index is in
range for every well-formed grid with positive dimensions). -/
def Grid.get (g : Grid) (row col : Int) : Cell :=
  g.grid.getD
    ((row % (g.height : Int)) * (g.width : Int) + col % (g.width : Int)).toNat
    DeadCell.init

/-- Grid.set(row, col, cell): same modular index computation as Grid.get. -/
def Grid.set (g : Grid) (row col : Int) (cell : Cell) : Grid :=
  { g with
    grid := g.grid.set
      ((row % (g.height : Int)) * (g.width : Int) +
        col % (g.width : Int)).toNat cell }

/-- One grid-level trial step: the two participants are fetched by index in
the flat cell list, trial.play runs on them, and the mutated objects are
written back.  Two participants are the same Python object exactly when the
indices coincide, since every slot owns an independent deepcopy. -/
def trialStep (cells : List Cell) (i j : Nat) : List Cell :=
  match cells[i]?, cells[j]? with
  | some c1, some c2 =>
      let r := Trial.play (decide (i = j)) c1 c2
      (cells.set i r.1).set j r.2.1
  | _, _ => cells

/-- A sequence of trials, each given by the pair of indices of its
participants. -/
def runTrials (cells : List Cell) (steps : List (Nat × Nat)) : List Cell :=
  steps.foldl (fun s p => trialStep s p.1 p.2) cells

/-- Nonnegativity invariant on a cell: every assigned value attribute and
every assigned bid attribute is nonnegative.  A nonnegative bid attribute
is exactly what makes every strategy propose only nonnegative bids, since
each suggest_bid implementation returns either self.bid or 0. -/
def ValInv (c : Cell) : Prop :=
  0 ≤ c.value.getD 0 ∧ 0 ≤ c.bid.getD 0

instance (c : Cell) : Decidable (ValInv c) := by
  unfold ValInv
  infer_instance

/-! ## Helper lemmas -/

deriving instance DecidableEq for Except

lemma int_add_emod_self (a b : Int) : (a + b) % b = a % b := by
  have h := Int.add_mul_emod_self_left a b 1
  rw [mul_one] at h
  exact h

/-- Inversion for a successful bid_cell call: the suggested bid and the
value attribute existed, and either the bid was affordable and deducted, or
the realized bid is 0 with the cell untouched. -/
lemma bid_cell_ok_cases (c d : Cell) (b : Int)
    (h : Trial.bid_cell c = (d, Except.ok b)) :
    ∃ v s, c.value = some v ∧ c.suggest_bid = Except.ok s ∧
      ((v - s ≥ 0 ∧ b = s ∧ d = { c with value := some (v - s) }) ∨
       (¬ v - s ≥ 0 ∧ b = 0 ∧ d = c)) := by
  unfold Trial.bid_cell at h
  split at h
  · simp at h
  next s hs =>
    split at h
    · simp at h
    next v hv =>
      split at h
      next hcond =>
        simp only [Prod.mk.injEq, Except.ok.injEq] at h
        exact ⟨v, s, hv, hs, Or.inl ⟨hcond, h.2.symm, h.1.symm⟩⟩
      next hcond =>
        simp only [Prod.mk.injEq, Except.ok.injEq] at h
        exact ⟨v, s, hv, hs, Or.inr ⟨hcond, h.2.symm, h.1.symm⟩⟩

/-- A realized bid of 0 leaves the cell exactly as it was. -/
lemma bid_cell_ok_zero (c d : Cell) (h : Trial.bid_cell c = (d, Except.ok 0)) :
    d = c := by
  rcases bid_cell_ok_cases c d 0 h with ⟨v, s, hv, _, ⟨_, hb, hd⟩ | ⟨_, _, hd⟩⟩
  · subst hb
    rw [hd]
    cases c with
    | mk k cv cb cl =>
        simp only [Cell.mk.injEq, and_true, true_and]
        simp only at hv
        rw [hv]
        simp
  · exact hd

/-- A nonzero realized bid came from the affordable branch: the bid equals
the suggestion and was deducted from the value attribute. -/
lemma bid_cell_ok_nonzero (c d : Cell) (b : Int)
    (h : Trial.bid_cell c = (d, Except.ok b)) (hb : b ≠ 0) :
    ∃ v, c.value = some v ∧ v - b ≥ 0 ∧ d = { c with value := some (v - b) } := by
  rcases bid_cell_ok_cases c d b h with ⟨v, s, hv, _, ⟨hge, hbs, hd⟩ | ⟨_, hb0, _⟩⟩
  · subst hbs
    exact ⟨v, hv, hge, hd⟩
  · exact absurd hb0 hb

/-- remember_play never touches value, bid or the class. -/
lemma remember_play_value (c : Cell) (m o : Int) :
    (c.remember_play m o).value = c.value := by
  unfold Cell.remember_play
  split <;> rfl

lemma remember_play_bid (c : Cell) (m o : Int) :
    (c.remember_play m o).bid = c.bid := by
  unfold Cell.remember_play
  split <;> rfl

/-- Unfolding of Trial.play on two live, distinct cells once both bid_cell
results are known. -/
lemma play_eq (c1 c2 d1 d2 : Cell) (b1 b2 : Int)
    (hk1 : c1.kind ≠ Kind.deadCell) (hk2 : c2.kind ≠ Kind.deadCell)
    (hb1 : Trial.bid_cell c1 = (d1, Except.ok b1))
    (hb2 : Trial.bid_cell c2 = (d2, Except.ok b2)) :
    Trial.play false c1 c2 =
      match
        (if b1 * b2 = 0 then
          if b1 = 0 ∧ b2 = 0 then fine_both_fraud d1 d2
          else if b1 = 0 then
            ((reward_one_fraud d1 b2).1, d2, (reward_one_fraud d1 b2).2)
          else (d1, (reward_one_fraud d2 b1).1, (reward_one_fraud d2 b1).2)
        else reward_mutual d1 d2 b1 b2) with
      | (e1, e2, some e) => (e1, e2, some e)
      | (e1, e2, none) =>
          (e1.remember_play b1 b2, e2.remember_play b2 b1, none) := by
  unfold Trial.play
  rw [if_neg (by simp [hk1, hk2]), hb1, hb2]

/-! ## Claim theorems -/

/-- C1: the claim (from the spec) says that in a one-sided-fraud trial the
non-fraudulent cell gains opponent_bid + FRAUD_REWARD and concretely that
AlwaysBid nets +1 against AlwaysFraud.  The code instead raises NameError
from the undefined module-level name params inside reward_one_fraud, so no
reward is ever applied: after the trial the bidding cell has lost its
deducted bid (net -1), the fraudulent cell is unchanged, and the exception
escapes.  (The call in Trial.play also passes the zero bidder, not the
victim, as the cell to reward.) -/
theorem one_sided_fraud_reward_never_applied :
    reward_one_fraud (AlwaysFraud.init 10 1) 1 =
      (AlwaysFraud.init 10 1, some PyErr.nameError) ∧
    Trial.play false (AlwaysFraud.init 10 1) (AlwaysBid.init 10 1) =
      (⟨Kind.alwaysFraud, some 10, some 1, none⟩,
       ⟨Kind.alwaysBid, some 9, some 1, none⟩, some PyErr.nameError) := by
  decide

/-- C2: the claim says a TitForTat cell proposes its bid parameter on its
first encounter.  In the code TitForTat.__init__ never calls the base
constructor, so the instance has no bid attribute and suggest_bid raises
AttributeError on the very first encounter; Trial.play aborts before any
bid is realized. -/
theorem titForTat_first_encounter_raises :
    TitForTat.init.suggest_bid = Except.error PyErr.attributeError ∧
    Trial.play false TitForTat.init (AlwaysBid.init 10 1) =
      (TitForTat.init, AlwaysBid.init 10 1, some PyErr.attributeError) := by
  decide

/-- C3: for every trial between two live, distinct cells in which exactly
one realized bid is zero, Trial.play stops with the NameError raised by the
undefined module-level name params referenced in reward_one_fraud; the
result is exactly the pair of post-bid_cell states together with the error,
so the nonzero bidder keeps its already-deducted value and remember_play
runs on neither cell. -/
theorem play_one_sided_fraud_raises (c1 c2 d1 d2 : Cell) (b1 b2 : Int)
    (hk1 : c1.kind ≠ Kind.deadCell) (hk2 : c2.kind ≠ Kind.deadCell)
    (hb1 : Trial.bid_cell c1 = (d1, Except.ok b1))
    (hb2 : Trial.bid_cell c2 = (d2, Except.ok b2))
    (hone : (b1 = 0 ∧ b2 ≠ 0) ∨ (b1 ≠ 0 ∧ b2 = 0)) :
    Trial.play false c1 c2 = (d1, d2, some PyErr.nameError) ∧
    (b1 ≠ 0 → d1.value = Option.map (fun v => v - b1) c1.value) ∧
    (b2 ≠ 0 → d2.value = Option.map (fun v => v - b2) c2.value) := by
  refine ⟨?_, ?_, ?_⟩
  · rw [play_eq c1 c2 d1 d2 b1 b2 hk1 hk2 hb1 hb2]
    rcases hone with ⟨h1, h2⟩ | ⟨h1, h2⟩
    · subst h1
      rw [if_pos (zero_mul b2), if_neg (by simp [h2]), if_pos rfl]
      rfl
    · subst h2
      rw [if_pos (mul_zero b1), if_neg (by simp [h1]), if_neg h1]
      rfl
  · intro h1
    rcases bid_cell_ok_nonzero c1 d1 b1 hb1 h1 with ⟨v, hv, _, hd⟩
    rw [hd, hv]
    rfl
  · intro h2
    rcases bid_cell_ok_nonzero c2 d2 b2 hb2 h2 with ⟨v, hv, _, hd⟩
    rw [hd, hv]
    rfl

theorem play_one_sided_fraud_raises_witness :
    Trial.play false (AlwaysBid.init 10 1) (AlwaysFraud.init 10 1) =
      (⟨Kind.alwaysBid, some 9, some 1, none⟩,
       ⟨Kind.alwaysFraud, some 10, some 1, none⟩, some PyErr.nameError) :=
  (play_one_sided_fraud_raises (AlwaysBid.init 10 1) (AlwaysFraud.init 10 1)
      ⟨Kind.alwaysBid, some 9, some 1, none⟩
      ⟨Kind.alwaysFraud, some 10, some 1, none⟩ 1 0
      (by decide) (by decide) (by decide) (by decide)
      (Or.inr ⟨by decide, rfl⟩)).1

/-- C5: in a mutual-cooperation trial (both realized bids nonzero) no error
escapes, reward_mutual adds bid1 + bid2 to each already-debited value, and
net of the prior deduction of its own bid each cell gains exactly the bid
of its opponent. -/
theorem play_mutual_cooperation (c1 c2 d1 d2 : Cell) (b1 b2 : Int)
    (hk1 : c1.kind ≠ Kind.deadCell) (hk2 : c2.kind ≠ Kind.deadCell)
    (hb1 : Trial.bid_cell c1 = (d1, Except.ok b1))
    (hb2 : Trial.bid_cell c2 = (d2, Except.ok b2))
    (h1 : b1 ≠ 0) (h2 : b2 ≠ 0) :
    (Trial.play false c1 c2).2.2 = none ∧
    (Trial.play false c1 c2).1.value =
      Option.map (fun v => v + (b1 + b2)) d1.value ∧
    (Trial.play false c1 c2).2.1.value =
      Option.map (fun v => v + (b1 + b2)) d2.value ∧
    (Trial.play false c1 c2).1.value =
      Option.map (fun v => v + b2) c1.value ∧
    (Trial.play false c1 c2).2.1.value =
      Option.map (fun v => v + b1) c2.value := by
  rcases bid_cell_ok_nonzero c1 d1 b1 hb1 h1 with ⟨v1, hv1, -, hd1⟩
  rcases bid_cell_ok_nonzero c2 d2 b2 hb2 h2 with ⟨v2, hv2, -, hd2⟩
  subst hd1
  subst hd2
  have hplay : Trial.play false c1 c2 =
      (Cell.remember_play
        { c1 with value := some (v1 - b1 + (b1 + b2)) } b1 b2,
       Cell.remember_play
        { c2 with value := some (v2 - b2 + (b1 + b2)) } b2 b1, none) := by
    rw [play_eq c1 c2 _ _ b1 b2 hk1 hk2 hb1 hb2, if_neg (mul_ne_zero h1 h2)]
    rfl
  rw [hplay]
  refine ⟨rfl, ?_, ?_, ?_, ?_⟩ <;>
    simp only [remember_play_value, hv1, hv2, Option.map_some'] <;>
    (congr 1; ring)

theorem play_mutual_cooperation_witness :
    (Trial.play false (AlwaysBid.init 10 1) (AlwaysBid.init 5 1)).2.2 = none ∧
    (Trial.play false (AlwaysBid.init 10 1) (AlwaysBid.init 5 1)).1.value =
      Option.map (fun v => v + (1 + 1))
        (⟨Kind.alwaysBid, some 9, some 1, none⟩ : Cell).value ∧
    (Trial.play false (AlwaysBid.init 10 1) (AlwaysBid.init 5 1)).2.1.value =
      Option.map (fun v => v + (1 + 1))
        (⟨Kind.alwaysBid, some 4, some 1, none⟩ : Cell).value ∧
    (Trial.play false (AlwaysBid.init 10 1) (AlwaysBid.init 5 1)).1.value =
      Option.map (fun v => v + 1) (AlwaysBid.init 10 1).value ∧
    (Trial.play false (AlwaysBid.init 10 1) (AlwaysBid.init 5 1)).2.1.value =
      Option.map (fun v => v + 1) (AlwaysBid.init 5 1).value :=
  play_mutual_cooperation (AlwaysBid.init 10 1) (AlwaysBid.init 5 1)
    ⟨Kind.alwaysBid, some 9, some 1, none⟩
    ⟨Kind.alwaysBid, some 4, some 1, none⟩ 1 1
    (by decide) (by decide) (by decide) (by decide) (by decide) (by decide)

/-- C6: in a mutual-fraud trial (both realized bids zero) no error escapes
and each value attribute becomes max (value - Params.FRAUD_FINE) 0, so a
cell whose value is 0 stays at 0. -/
theorem play_mutual_fraud (c1 c2 d1 d2 : Cell)
    (hk1 : c1.kind ≠ Kind.deadCell) (hk2 : c2.kind ≠ Kind.deadCell)
    (hb1 : Trial.bid_cell c1 = (d1, Except.ok 0))
    (hb2 : Trial.bid_cell c2 = (d2, Except.ok 0)) :
    (Trial.play false c1 c2).2.2 = none ∧
    (Trial.play false c1 c2).1.value =
      Option.map (fun v => max (v - Params.FRAUD_FINE) 0) c1.value ∧
    (Trial.play false c1 c2).2.1.value =
      Option.map (fun v => max (v - Params.FRAUD_FINE) 0) c2.value := by
  rcases bid_cell_ok_cases c1 d1 0 hb1 with ⟨v1, s1, hv1, -, -⟩
  rcases bid_cell_ok_cases c2 d2 0 hb2 with ⟨v2, s2, hv2, -, -⟩
  have e1 := bid_cell_ok_zero c1 d1 hb1
  have e2 := bid_cell_ok_zero c2 d2 hb2
  have hplay : Trial.play false c1 c2 =
      (Cell.remember_play
        { c1 with value := some (max (v1 - Params.FRAUD_FINE) 0) } 0 0,
       Cell.remember_play
        { c2 with value := some (max (v2 - Params.FRAUD_FINE) 0) } 0 0,
       none) := by
    rw [play_eq c1 c2 d1 d2 0 0 hk1 hk2 hb1 hb2,
      if_pos (mul_zero (0 : Int)),
      if_pos (show (0 : Int) = 0 ∧ (0 : Int) = 0 from ⟨rfl, rfl⟩), e1, e2]
    unfold fine_both_fraud
    rw [hv1, hv2]
  rw [hplay]
  refine ⟨rfl, ?_, ?_⟩ <;>
    simp only [remember_play_value, hv1, hv2, Option.map_some']

theorem play_mutual_fraud_witness :
    (Trial.play false (AlwaysFraud.init 0 1) (AlwaysFraud.init 7 1)).2.2 =
      none ∧
    (Trial.play false (AlwaysFraud.init 0 1) (AlwaysFraud.init 7 1)).1.value =
      Option.map (fun v => max (v - Params.FRAUD_FINE) 0)
        (AlwaysFraud.init 0 1).value ∧
    (Trial.play false (AlwaysFraud.init 0 1) (AlwaysFraud.init 7 1)).2.1.value =
      Option.map (fun v => max (v - Params.FRAUD_FINE) 0)
        (AlwaysFraud.init 7 1).value :=
  play_mutual_fraud (AlwaysFraud.init 0 1) (AlwaysFraud.init 7 1)
    (AlwaysFraud.init 0 1) (AlwaysFraud.init 7 1)
    (by decide) (by decide) (by decide) (by decide)

/-- C7: when a cell with a nonnegative value proposes a bid, bid_cell never
errors, the realized bid never exceeds the value at the moment of bidding,
an affordable proposal is deducted and realized as proposed, an
unaffordable one realizes 0 with the value untouched, and the strategy
state (class, bid parameter, remembered opponent bid) is never altered. -/
theorem bid_cell_realized_le_value (c : Cell) (v s : Int)
    (hv : c.value = some v) (hnn : 0 ≤ v)
    (hs : c.suggest_bid = Except.ok s) :
    (Trial.bid_cell c).2 = Except.ok (if v - s ≥ 0 then s else 0) ∧
    (if v - s ≥ 0 then s else 0) ≤ v ∧
    (Trial.bid_cell c).1.value = some (if v - s ≥ 0 then v - s else v) ∧
    (Trial.bid_cell c).1.kind = c.kind ∧
    (Trial.bid_cell c).1.bid = c.bid ∧
    (Trial.bid_cell c).1.lastOtherBid = c.lastOtherBid := by
  unfold Trial.bid_cell
  simp only [hs, hv]
  split_ifs with hcond
  · exact ⟨rfl, by omega, rfl, rfl, rfl, rfl⟩
  · exact ⟨rfl, hnn, hv, rfl, rfl, rfl⟩

theorem bid_cell_realized_le_value_witness :
    (Trial.bid_cell (AlwaysBid.init 0 5)).2 =
      Except.ok (if (0 : Int) - 5 ≥ 0 then 5 else 0) ∧
    ((if (0 : Int) - 5 ≥ 0 then 5 else 0) : Int) ≤ 0 ∧
    (Trial.bid_cell (AlwaysBid.init 0 5)).1.value =
      some (if (0 : Int) - 5 ≥ 0 then 0 - 5 else 0) ∧
    (Trial.bid_cell (AlwaysBid.init 0 5)).1.kind = (AlwaysBid.init 0 5).kind ∧
    (Trial.bid_cell (AlwaysBid.init 0 5)).1.bid = (AlwaysBid.init 0 5).bid ∧
    (Trial.bid_cell (AlwaysBid.init 0 5)).1.lastOtherBid =
      (AlwaysBid.init 0 5).lastOtherBid :=
  bid_cell_realized_le_value (AlwaysBid.init 0 5) 0 5 rfl (by decide) rfl

/-- C8: Trial.play is a complete no-op, returning both cells unchanged with
no exception, whenever either cell is a DeadCell or the two arguments are
the same object, for any prior attribute values. -/
theorem play_noop_dead_or_same (sameInstance : Bool) (c1 c2 : Cell)
    (h : c1.kind = Kind.deadCell ∨ c2.kind = Kind.deadCell ∨
      sameInstance = true) :
    Trial.play sameInstance c1 c2 = (c1, c2, none) := by
  unfold Trial.play
  rw [if_pos h]

theorem play_noop_dead_or_same_witness :
    Trial.play true (AlwaysBid.init 10 1) (AlwaysBid.init 10 1) =
      (AlwaysBid.init 10 1, AlwaysBid.init 10 1, none) :=
  play_noop_dead_or_same true (AlwaysBid.init 10 1) (AlwaysBid.init 10 1)
    (Or.inr (Or.inr rfl))

/-- C10: grid addressing is toroidal: for any integer row and col of a grid
with positive dimensions, Grid.get at (row + height, col + width) is the
same cell as at (row, col), because the index is reduced modulo height and
width. -/
theorem grid_get_toroidal (g : Grid) (row col : Int)
    (_hh : 0 < g.height) (_hw : 0 < g.width) :
    g.get (row + g.height) (col + g.width) = g.get row col := by
  unfold Grid.get
  rw [int_add_emod_self, int_add_emod_self]

theorem grid_get_toroidal_witness :
    0 < (Grid.init 2 2 (AlwaysFraud.init 10 1) false).height ∧
    0 < (Grid.init 2 2 (AlwaysFraud.init 10 1) false).width ∧
    (Grid.init 2 2 (AlwaysFraud.init 10 1) false).get
        (-1 + ((Grid.init 2 2 (AlwaysFraud.init 10 1) false).height : Int))
        (-1 + ((Grid.init 2 2 (AlwaysFraud.init 10 1) false).width : Int)) =
      (Grid.init 2 2 (AlwaysFraud.init 10 1) false).get (-1) (-1) :=
  ⟨by decide, by decide,
    grid_get_toroidal (Grid.init 2 2 (AlwaysFraud.init 10 1) false) (-1) (-1)
      (by decide) (by decide)⟩

/-- Every successful suggest_bid call of a cell with nonnegative attributes
returns a nonnegative bid: each implementation returns either self.bid or
the literal 0. -/
lemma suggest_bid_nonneg (c : Cell) (b : Int) (hinv : ValInv c)
    (h : c.suggest_bid = Except.ok b) : 0 ≤ b := by
  rcases hinv with ⟨-, hbid⟩
  unfold Cell.suggest_bid at h
  split at h
  · split at h
    next b0 hb =>
      simp only [Except.ok.injEq] at h
      subst h
      rw [hb] at hbid
      simpa using hbid
    · simp at h
  · simp only [Except.ok.injEq] at h
    omega
  · simp at h
  · split at h
    · simp at h
    · split at h
      · split at h
        next b0 hb =>
          simp only [Except.ok.injEq] at h
          subst h
          rw [hb] at hbid
          simpa using hbid
        · simp at h
      · simp only [Except.ok.injEq] at h
        omega

/-- bid_cell keeps the invariant and realizes only nonnegative bids. -/
lemma bid_cell_ValInv (c : Cell) (hinv : ValInv c) :
    ValInv (Trial.bid_cell c).1 ∧
    (∀ b, (Trial.bid_cell c).2 = Except.ok b → 0 ≤ b) := by
  unfold Trial.bid_cell
  split
  · exact ⟨hinv, fun b hb => by simp at hb⟩
  next s hs =>
    split
    · exact ⟨hinv, fun b hb => by simp at hb⟩
    next v hv =>
      split
      next hcond =>
        refine ⟨⟨by simpa using hcond, hinv.2⟩, ?_⟩
        intro b hb
        simp only [Except.ok.injEq] at hb
        subst hb
        exact suggest_bid_nonneg c s hinv hs
      next hcond =>
        refine ⟨hinv, ?_⟩
        intro b hb
        simp only [Except.ok.injEq] at hb
        omega

/-- reward_mutual keeps the invariant when both bids are nonnegative. -/
lemma reward_mutual_ValInv (c1 c2 : Cell) (b1 b2 : Int)
    (h1 : ValInv c1) (h2 : ValInv c2) (hb1 : 0 ≤ b1) (hb2 : 0 ≤ b2) :
    ValInv (reward_mutual c1 c2 b1 b2).1 ∧
    ValInv (reward_mutual c1 c2 b1 b2).2.1 := by
  unfold reward_mutual
  split
  · exact ⟨h1, h2⟩
  next v1 hv1 =>
    have hnn1 : 0 ≤ v1 := by
      have := h1.1
      rw [hv1] at this
      simpa using this
    split
    · refine ⟨⟨?_, h1.2⟩, h2⟩
      simp only [Option.getD_some]
      omega
    next v2 hv2 =>
      have hnn2 : 0 ≤ v2 := by
        have := h2.1
        rw [hv2] at this
        simpa using this
      refine ⟨⟨?_, h1.2⟩, ⟨?_, h2.2⟩⟩ <;> (simp only [Option.getD_some]; omega)

/-- fine_both_fraud keeps the invariant: the fined values clamp at 0. -/
lemma fine_both_fraud_ValInv (c1 c2 : Cell)
    (h1 : ValInv c1) (h2 : ValInv c2) :
    ValInv (fine_both_fraud c1 c2).1 ∧ ValInv (fine_both_fraud c1 c2).2.1 := by
  unfold fine_both_fraud
  split
  · exact ⟨h1, h2⟩
  next v1 hv1 =>
    split
    · refine ⟨⟨?_, h1.2⟩, h2⟩
      simp only [Option.getD_some]
      exact le_max_right _ 0
    next v2 hv2 =>
      refine ⟨⟨?_, h1.2⟩, ⟨?_, h2.2⟩⟩ <;>
        (simp only [Option.getD_some]; exact le_max_right _ 0)

/-- remember_play keeps the invariant: it never touches value or bid. -/
lemma remember_play_ValInv (c : Cell) (m o : Int) (h : ValInv c) :
    ValInv (c.remember_play m o) := by
  unfold ValInv
  rw [remember_play_value, remember_play_bid]
  exact h

/-- Trial.play keeps the invariant on both participants. -/
lemma play_ValInv (s : Bool) (c1 c2 : Cell)
    (h1 : ValInv c1) (h2 : ValInv c2) :
    ValInv (Trial.play s c1 c2).1 ∧ ValInv (Trial.play s c1 c2).2.1 := by
  unfold Trial.play
  split
  · exact ⟨h1, h2⟩
  · split
    next d1 e heq =>
      have t1 := bid_cell_ValInv c1 h1
      rw [heq] at t1
      exact ⟨t1.1, h2⟩
    next d1 b1 heq1 =>
      split
      next d2 e heq2 =>
        have t1 := bid_cell_ValInv c1 h1
        have t2 := bid_cell_ValInv c2 h2
        rw [heq1] at t1
        rw [heq2] at t2
        exact ⟨t1.1, t2.1⟩
      next d2 b2 heq2 =>
        have t1 := bid_cell_ValInv c1 h1
        have t2 := bid_cell_ValInv c2 h2
        rw [heq1] at t1
        rw [heq2] at t2
        have hb1 : 0 ≤ b1 := t1.2 b1 rfl
        have hb2 : 0 ≤ b2 := t2.2 b2 rfl
        by_cases hz : b1 * b2 = 0
        · rw [if_pos hz]
          by_cases hbo : b1 = 0 ∧ b2 = 0
          · rw [if_pos hbo]
            have hf := fine_both_fraud_ValInv d1 d2 t1.1 t2.1
            rcases hrc : fine_both_fraud d1 d2 with ⟨e1, e2, e⟩
            rw [hrc] at hf
            cases e
            · exact ⟨remember_play_ValInv e1 b1 b2 hf.1,
                remember_play_ValInv e2 b2 b1 hf.2⟩
            · exact hf
          · rw [if_neg hbo]
            by_cases hb1z : b1 = 0
            · rw [if_pos hb1z]
              exact ⟨t1.1, t2.1⟩
            · rw [if_neg hb1z]
              exact ⟨t1.1, t2.1⟩
        · rw [if_neg hz]
          have hm := reward_mutual_ValInv d1 d2 b1 b2 t1.1 t2.1 hb1 hb2
          rcases hrc : reward_mutual d1 d2 b1 b2 with ⟨e1, e2, e⟩
          rw [hrc] at hm
          cases e
          · exact ⟨remember_play_ValInv e1 b1 b2 hm.1,
              remember_play_ValInv e2 b2 b1 hm.2⟩
          · exact hm

/-- trialStep keeps the invariant on every cell of the list. -/
lemma trialStep_ValInv (cells : List Cell) (i j : Nat)
    (h : ∀ c ∈ cells, ValInv c) :
    ∀ c ∈ trialStep cells i j, ValInv c := by
  unfold trialStep
  split
  next c1 c2 hc1 hc2 =>
    intro c hc
    have hp := play_ValInv (decide (i = j)) c1 c2
      (h c1 (List.getElem?_mem hc1)) (h c2 (List.getElem?_mem hc2))
    rcases List.mem_or_eq_of_mem_set hc with hc | rfl
    · rcases List.mem_or_eq_of_mem_set hc with hc | rfl
      · exact h c hc
      · exact hp.1
    · exact hp.2
  · exact h

/-- C4: starting from cells whose value and bid attributes are all
nonnegative (so every strategy proposes only nonnegative bids), no value is
ever negative after any sequence of trials: deduction happens only when
value - bid is nonnegative and the mutual-fraud fine clamps at 0. -/
theorem runTrials_value_nonneg (cells : List Cell)
    (steps : List (Nat × Nat)) (h : ∀ c ∈ cells, ValInv c) :
    ∀ c ∈ runTrials cells steps, ValInv c := by
  induction steps generalizing cells with
  | nil => exact h
  | cons p t ih =>
      exact ih (trialStep cells p.1 p.2) (trialStep_ValInv cells p.1 p.2 h)

theorem runTrials_value_nonneg_witness :
    ValInv (AlwaysBid.init 9 1) ∧ ValInv (AlwaysFraud.init 0 1) :=
  ⟨runTrials_value_nonneg [AlwaysBid.init 10 1, AlwaysFraud.init 0 1]
      [(0, 1)] (by decide) (AlwaysBid.init 9 1) (by decide),
   runTrials_value_nonneg [AlwaysBid.init 10 1, AlwaysFraud.init 0 1]
      [(0, 1)] (by decide) (AlwaysFraud.init 0 1) (by decide)⟩

/-- Length is preserved by a fold of paired set operations. -/
lemma foldl_set_pair_length (dead : Cell) (f g : Nat → Nat) (idxs : List Nat)
    (l : List Cell) :
    (idxs.foldl (fun acc i => (acc.set (f i) dead).set (g i) dead) l).length =
      l.length := by
  induction idxs generalizing l with
  | nil => rfl
  | cons a t ih =>
      rw [List.foldl_cons, ih]
      simp

/-- Index view of a fold of paired set operations: a position in range
holds the dead value exactly when some loop index hits it. -/
lemma foldl_set_pair_getElem (dead : Cell) (f g : Nat → Nat) (idxs : List Nat)
    (l : List Cell) (j : Nat) (hj : j < l.length) :
    (idxs.foldl (fun acc i => (acc.set (f i) dead).set (g i) dead) l)[j]? =
      if ∃ i ∈ idxs, f i = j ∨ g i = j then some dead else l[j]? := by
  induction idxs generalizing l with
  | nil => simp
  | cons a t ih =>
      rw [List.foldl_cons, ih ((l.set (f a) dead).set (g a) dead)
        (by simpa using hj)]
      simp only [List.exists_mem_cons_iff, List.getElem?_set, List.length_set]
      by_cases hA : ∃ i ∈ t, f i = j ∨ g i = j <;>
        by_cases hga : g a = j <;>
        by_cases hfa : f a = j <;>
        simp [hA, hga, hfa, hj]

/-- A multiple of W equals r * W + c with c < W only for i = r, c = 0. -/
lemma mul_index_unique (i r c W : Nat) (hc : c < W) (h : i * W = r * W + c) :
    i = r ∧ c = 0 := by
  rcases Nat.lt_trichotomy i r with hlt | rfl | hgt
  · have h2 : (i + 1) * W ≤ r * W := Nat.mul_le_mul_right W hlt
    have h3 : (i + 1) * W = i * W + W := by ring
    omega
  · omega
  · have h2 : (r + 1) * W ≤ i * W := Nat.mul_le_mul_right W hgt
    have h3 : (r + 1) * W = r * W + W := by ring
    omega

/-- The first border loop (first and last column of every row) hits the
position r * W + c exactly when c is the first or the last column. -/
lemma border_loop1_cond (H W r c : Nat) (hW : 0 < W) (hr : r < H)
    (hc : c < W) :
    (∃ i ∈ List.range H,
        i * W = r * W + c ∨ (i + 1) * W - 1 = r * W + c) ↔
      (c = 0 ∨ c = W - 1) := by
  constructor
  · rintro ⟨i, -, hcase | hcase⟩
    · exact Or.inl (mul_index_unique i r c W hc hcase).2
    · right
      have hpos : 0 < (i + 1) * W := Nat.mul_pos (Nat.succ_pos i) hW
      have h1 : (i + 1) * W = r * W + (c + 1) := by omega
      by_cases hcw : c + 1 < W
      · have := (mul_index_unique (i + 1) r (c + 1) W hcw h1).2
        omega
      · omega
  · rintro (rfl | rfl)
    · exact ⟨r, List.mem_range.mpr hr, Or.inl (by ring)⟩
    · refine ⟨r, List.mem_range.mpr hr, Or.inr ?_⟩
      have h1 : (r + 1) * W = r * W + W := by ring
      omega

/-- The second border loop (middle of the first and the last row) hits the
position r * W + c exactly when r is the first or the last row and c is an
interior column. -/
lemma border_loop2_cond (H W r c : Nat) (hW : 1 < W) (hr : r < H)
    (hc : c < W) :
    (∃ i ∈ List.range' 1 (W - 1 - 1),
        i = r * W + c ∨ H * W - 1 - i = r * W + c) ↔
      ((r = 0 ∨ r = H - 1) ∧ 1 ≤ c ∧ c ≤ W - 2) := by
  constructor
  · rintro ⟨i, hi, hcase | hcase⟩
    · rw [List.mem_range'_1] at hi
      rcases Nat.eq_zero_or_pos r with rfl | hpos
      · omega
      · have h2 : 1 * W ≤ r * W := Nat.mul_le_mul_right W hpos
        omega
    · rw [List.mem_range'_1] at hi
      have hb1 : (r + 1) * W ≤ H * W := Nat.mul_le_mul_right W hr
      have he1 : (r + 1) * W = r * W + W := by ring
      by_cases hr2 : r + 2 ≤ H
      · have hb2 : (r + 2) * W ≤ H * W := Nat.mul_le_mul_right W hr2
        have he2 : (r + 2) * W = r * W + W + W := by ring
        omega
      · have hH2 : H ≤ r + 1 := by omega
        have hb3 : H * W ≤ (r + 1) * W := Nat.mul_le_mul_right W hH2
        omega
  · rintro ⟨rfl | rfl, hc1, hc2⟩
    · refine ⟨c, List.mem_range'_1.mpr ⟨hc1, by omega⟩, Or.inl (by omega)⟩
    · refine ⟨W - 1 - c,
        List.mem_range'_1.mpr ⟨by omega, by omega⟩, Or.inr ?_⟩
      have hE : H - 1 + 1 = H := by omega
      have he1 : (H - 1 + 1) * W = (H - 1) * W + W := by ring
      rw [hE] at he1
      omega

/-- C9: constructing a bordered grid stores height + 2 and width + 2 and
fills the flat list so that every outer-ring position holds a DeadCell
while every interior position holds its own copy of the fill prototype. -/
theorem grid_border_ring (h w : Nat) (fill : Cell) (r c : Nat)
    (hr : r < h + 2) (hc : c < w + 2) :
    (Grid.init h w fill true).height = h + 2 ∧
    (Grid.init h w fill true).width = w + 2 ∧
    (Grid.init h w fill true).grid[r * (w + 2) + c]? =
      some (if r = 0 ∨ r = h + 1 ∨ c = 0 ∨ c = w + 1 then DeadCell.init
        else fill) := by
  refine ⟨rfl, rfl, ?_⟩
  have hj : r * (w + 2) + c < (h + 2) * (w + 2) := by
    have h1 : (r + 1) * (w + 2) ≤ (h + 2) * (w + 2) :=
      Nat.mul_le_mul_right (w + 2) hr
    have h2 : (r + 1) * (w + 2) = r * (w + 2) + (w + 2) := by ring
    omega
  have hlen1 :
      ((List.range (h + 2)).foldl
        (fun g i => (g.set (i * (w + 2)) DeadCell.init).set
          ((i + 1) * (w + 2) - 1) DeadCell.init)
        (List.replicate ((h + 2) * (w + 2)) fill)).length =
      (h + 2) * (w + 2) := by
    have hfl := foldl_set_pair_length DeadCell.init
      (fun i => i * (w + 2)) (fun i => (i + 1) * (w + 2) - 1)
      (List.range (h + 2)) (List.replicate ((h + 2) * (w + 2)) fill)
    simpa using hfl
  have key1 :
      ((List.range (h + 2)).foldl
        (fun g i => (g.set (i * (w + 2)) DeadCell.init).set
          ((i + 1) * (w + 2) - 1) DeadCell.init)
        (List.replicate ((h + 2) * (w + 2)) fill))[r * (w + 2) + c]? =
      if c = 0 ∨ c = w + 2 - 1 then some DeadCell.init else some fill := by
    have hget := foldl_set_pair_getElem DeadCell.init
      (fun i => i * (w + 2)) (fun i => (i + 1) * (w + 2) - 1)
      (List.range (h + 2)) (List.replicate ((h + 2) * (w + 2)) fill)
      (r * (w + 2) + c) (by simpa using hj)
    simp only [border_loop1_cond (h + 2) (w + 2) r c (by omega) hr hc,
      List.getElem?_replicate, hj, if_true] at hget
    exact hget
  have hgrid : (Grid.init h w fill true).grid =
      (List.range' 1 (w + 2 - 1 - 1)).foldl
        (fun g i => (g.set i DeadCell.init).set
          ((h + 2) * (w + 2) - 1 - i) DeadCell.init)
        ((List.range (h + 2)).foldl
          (fun g i => (g.set (i * (w + 2)) DeadCell.init).set
            ((i + 1) * (w + 2) - 1) DeadCell.init)
          (List.replicate ((h + 2) * (w + 2)) fill)) := rfl
  have key2 :
      (Grid.init h w fill true).grid[r * (w + 2) + c]? =
      if (r = 0 ∨ r = h + 2 - 1) ∧ 1 ≤ c ∧ c ≤ w + 2 - 2 then
        some DeadCell.init
      else if c = 0 ∨ c = w + 2 - 1 then some DeadCell.init
      else some fill := by
    have hget := foldl_set_pair_getElem DeadCell.init
      (fun i => i) (fun i => (h + 2) * (w + 2) - 1 - i)
      (List.range' 1 (w + 2 - 1 - 1))
      ((List.range (h + 2)).foldl
        (fun g i => (g.set (i * (w + 2)) DeadCell.init).set
          ((i + 1) * (w + 2) - 1) DeadCell.init)
        (List.replicate ((h + 2) * (w + 2)) fill))
      (r * (w + 2) + c) (by rw [hlen1]; exact hj)
    simp only [border_loop2_cond (h + 2) (w + 2) r c (by omega) hr hc,
      key1] at hget
    rw [hgrid]
    exact hget
  rw [key2]
  split_ifs <;> first | rfl | omega

theorem grid_border_ring_witness :
    (Grid.init 1 1 (AlwaysBid.init 10 1) true).height = 1 + 2 ∧
    (Grid.init 1 1 (AlwaysBid.init 10 1) true).width = 1 + 2 ∧
    (Grid.init 1 1 (AlwaysBid.init 10 1) true).grid[1 * (1 + 2) + 1]? =
      some (if (1 : Nat) = 0 ∨ (1 : Nat) = 1 + 1 ∨ (1 : Nat) = 0 ∨
          (1 : Nat) = 1 + 1 then DeadCell.init
        else AlwaysBid.init 10 1) :=
  grid_border_ring 1 1 (AlwaysBid.init 10 1) 1 1 (by decide) (by decide)
